import Mathlib

/-!
# Occupancy backend: temporal feature synthesis, verified embedding

Shallow embedding of the three Python source files of the
`occupancy-backend` repository:

* `gb_prediction/make_prediction.py`  — week-keyed `Schedule`, cyclical
  feature extraction, timestamp range generation;
* `gb_prediction/make_predictions.py` — flat `Schedule` variant and the
  term-time classifier;
* `lstm_prediction/make_predictions.py` — the tail-pad sequence windower.

Timestamps are modelled as a calendar-free structure: `day` is the number
of days since 1970-01-01 (a Thursday, so Python's `weekday()` — Monday = 0 —
is `(day + 3) % 7`), plus wall-clock hour/minute/second fields.  Python
float division is modelled by exact `ℚ` division.
-/

namespace Occupancy

/-- One day's operating window, from `class Timing` (both gb files):
`opening`/`closing` are HHMM-encoded ints, `isOpen` a flag. -/
structure Timing where
  opening : Nat
  closing : Nat
  isOpen : Bool
deriving DecidableEq, Repr

/-- A timestamp: days since 1970-01-01 plus time of day. -/
structure Timestamp where
  day : Int
  hour : Nat
  minute : Nat
  second : Nat
deriving DecidableEq, Repr

/-- Python `Schedule.timestamp_to_hhmm`: `timestamp.hour * 100 + timestamp.minute`. -/
def timestamp_to_hhmm (t : Timestamp) : Nat :=
  t.hour * 100 + t.minute

/-- Python `Schedule.get_weekday`: `timestamp.weekday()`, Monday = 0 ..
Sunday = 6.  Day 0 (1970-01-01) is a Thursday, hence the `+ 3`. -/
def get_weekday (t : Timestamp) : Nat :=
  ((t.day + 3) % 7).toNat

/-- Python `Schedule.get_start_of_week`: subtract `days_since_monday` days and
normalize to midnight; represented by the Monday's day index. -/
def get_start_of_week (t : Timestamp) : Int :=
  t.day - get_weekday t

/-- The hardcoded `self.default` list from `Schedule.__init__`
(both gb files): Mon–Fri 0630–2230, Sat–Sun 0800–2100, all open. -/
def default_timings : List Timing :=
  [⟨630, 2230, true⟩, ⟨630, 2230, true⟩, ⟨630, 2230, true⟩, ⟨630, 2230, true⟩,
   ⟨630, 2230, true⟩, ⟨800, 2100, true⟩, ⟨800, 2100, true⟩]

/-- The week-keyed `Schedule` of `make_prediction.py`: `self.data` maps a
week's Monday (day index) to that week's seven timings.  The dict is
modelled as an association list where the most recent assignment is at the
head, so `List.lookup` returns the last value written, as a Python dict
does. -/
structure Schedule where
  data : List (Int × List Timing)
deriving DecidableEq, Repr

/-- The boundary/interpolation arithmetic of `Schedule.get_number`
(lines 59–64 of `make_prediction.py`): `0` at or before opening, `1` at or
after closing, linear in between.  Python float division becomes exact
rational division. -/
def Timing.progress (tm : Timing) (number : Nat) : ℚ :=
  if number ≤ tm.opening then 0
  else if tm.closing ≤ number then 1
  else ((number : ℚ) - (tm.opening : ℚ)) / ((tm.closing : ℚ) - (tm.opening : ℚ))

/-- Timing resolution of `Schedule.get_number` (lines 52–57): exact-match
lookup of the week's Monday in `self.data`, else the default schedule,
indexed by weekday.  (The lists always have length 7 when built by the
constructor, so the `getD` fallback value is never used.) -/
def Schedule.resolve (s : Schedule) (t : Timestamp) : Timing :=
  match s.data.lookup (get_start_of_week t) with
  | some timings => timings.getD (get_weekday t) ⟨0, 0, true⟩
  | none => default_timings.getD (get_weekday t) ⟨0, 0, true⟩

/-- Python `Schedule.get_number` of `make_prediction.py`: resolve the applicable
timing, then apply the progress arithmetic to the timestamp's HHMM. -/
def Schedule.get_number (s : Schedule) (t : Timestamp) : ℚ :=
  (s.resolve t).progress (timestamp_to_hhmm t)

/-- Python `generate_datetime_range(date_from, date_to, interval_minutes)` (both
gb files): `while current <= date_to: yield current; current += interval`.
Timestamps are modelled as integers (minutes since an epoch); the loop
terminates only for a positive step, so positivity is a parameter. -/
def generate_datetime_range (date_from date_to : Int) (interval_minutes : Nat)
    (hstep : 0 < interval_minutes) : List Int :=
  if date_from ≤ date_to then
    date_from ::
      generate_datetime_range (date_from + interval_minutes) date_to interval_minutes hstep
  else []
termination_by (date_to + 1 - date_from).toNat
decreasing_by simp_wf; omega

/-- The constructor loop of `Schedule.__init__` in `make_prediction.py`
(lines 26–34).  The input `sch` is the two-array form `[dates, blobs]`
(parallel arrays of week-start dates and per-week timing blobs), so
Python's `for i in range(len(sch))` iterates over `i = 0, 1` — `len(sch)`
is the length of the *pair*, not the number of weeks.  Each iteration
reads `sch[0][i]` and `sch[1][i]`; `for j in range(7)` keeps the first
seven timings of the blob.  Out-of-range indexing (fewer than 2 weeks, or
a blob with fewer than 7 entries) raises in Python, modelled by `none`.
Dict assignment is modelled by prepending, so a later write shadows an
earlier one under `List.lookup`. -/
def Schedule.init (dates : List Int) (blobs : List (List Timing)) :
    Option Schedule :=
  ((List.range 2).foldlM (fun data i =>
      (dates.get? i).bind fun date =>
        (blobs.get? i).bind fun blob =>
          if 7 ≤ blob.length then some ((date, blob.take 7) :: data) else none)
    ([] : List (Int × List Timing))).map Schedule.mk

/-! ## `gb_prediction/make_predictions.py` -/

/-- Fields that `extract_features_dates` reads off `df['timestamp'].dt`
(identical in both gb files). -/
structure DtFields where
  dayofweek : Nat
  day : Nat
  month : Nat
  dayofyear : Nat
  hour : Nat
  minute : Nat
  second : Nat
deriving DecidableEq, Repr

/-- The columns `extract_features_dates` writes. -/
structure DateFeatures where
  day_sin : ℝ
  day_cos : ℝ
  month_sin : ℝ
  month_cos : ℝ
  day_of_year_sin : ℝ
  day_of_year_cos : ℝ
  day_progress : ℝ

/-- Python `extract_features_dates` (lines 66–89 of `make_prediction.py`): sin/cos
encodings of weekday, month and day-of-year (fixed divisor 365), and the
fraction of the day elapsed. -/
noncomputable def extract_features_dates (t : DtFields) : DateFeatures :=
  let max_month : ℝ := 12
  let max_day_of_year : ℝ := 365
  { day_sin := Real.sin ((t.dayofweek : ℝ) * (2 * Real.pi / 7))
    day_cos := Real.cos ((t.dayofweek : ℝ) * (2 * Real.pi / 7))
    month_sin := Real.sin (2 * Real.pi * (t.month : ℝ) / max_month)
    month_cos := Real.cos (2 * Real.pi * (t.month : ℝ) / max_month)
    day_of_year_sin := Real.sin (2 * Real.pi * (t.dayofyear : ℝ) / max_day_of_year)
    day_of_year_cos := Real.cos (2 * Real.pi * (t.dayofyear : ℝ) / max_day_of_year)
    day_progress :=
      ((t.hour * 3600 + t.minute * 60 + t.second : Nat) : ℝ) / 86400 }

/-- Day count since 1970-01-01 of a proleptic-Gregorian civil date
(the value `pd.Timestamp('YYYY-MM-DD')` denotes, at day granularity).
Standard days-from-civil computation, restricted to years ≥ 1. -/
def days_from_civil (y m d : Nat) : Int :=
  let y' : Nat := if m ≤ 2 then y - 1 else y
  let era : Nat := y' / 400
  let yoe : Nat := y' - era * 400
  let mp : Nat := if 2 < m then m - 3 else m + 9
  let doy : Nat := (153 * mp + 2) / 5 + d - 1
  let doe : Nat := yoe * 365 + yoe / 4 - yoe / 100 + doy
  (era : Int) * 146097 + (doe : Int) - 719468

/-- The `term_periods` table of `classify_term_time`
(lines 14–31 of `make_predictions.py`), as day indexes. -/
def term_periods : List (Int × Int) :=
  [(days_from_civil 2024 9 16, days_from_civil 2024 10 20),
   (days_from_civil 2024 10 28, days_from_civil 2024 12 1),
   (days_from_civil 2024 12 6, days_from_civil 2024 12 20),
   (days_from_civil 2025 1 27, days_from_civil 2025 3 2),
   (days_from_civil 2025 3 10, days_from_civil 2025 4 6),
   (days_from_civil 2025 4 14, days_from_civil 2025 4 27),
   (days_from_civil 2025 4 28, days_from_civil 2025 5 26),
   (days_from_civil 2025 5 27, days_from_civil 2025 5 31)]

/-- Python `classify_term_time` (lines 33–41), for one row whose timestamp is the
day `d`: start from `is_non_term_time = 1`, then for each period set it to
`0` when `start_date ≤ d < end_date + 1 day`. -/
def classify_term_time (d : Int) : Nat :=
  term_periods.foldl
    (fun acc p => if p.1 ≤ d ∧ d < p.2 + 1 then 0 else acc) 1

/-! ## `lstm_prediction/make_predictions.py` -/

/-- Python's `xs[-L::]`: the last `L` elements, except that `-0` means
index 0, so `L = 0` yields the whole list. -/
def tail_slice (xs : List α) (L : Nat) : List α :=
  if L = 0 then xs else xs.drop (xs.length - L)

/-- Python `create_sequences(features, targets, sequence_length)` (lines 11–21):
for each `i` in `range(len(features))`, if `i + sequence_length >= n`
(`n = len(targets)`) append the tail window `features[-sequence_length::]`
and `targets[-1]`, else `features[i:i+sequence_length]` and
`targets[i + sequence_length]`.  The target reads are partial in Python
(`targets[-1]` raises on an empty list), hence `Option` values. -/
def create_sequences (features : List α) (targets : List β)
    (sequence_length : Nat) : List (List α) × List (Option β) :=
  let n := targets.length
  ((List.range features.length).map fun i =>
      if n ≤ i + sequence_length then tail_slice features sequence_length
      else (features.drop i).take sequence_length,
   (List.range features.length).map fun i =>
      if n ≤ i + sequence_length then targets.getLast?
      else targets.get? (i + sequence_length))

/-- Two timings with the same operating hours (the `isOpen` flag free). -/
def Timing.sameHours (a b : Timing) : Prop :=
  a.opening = b.opening ∧ a.closing = b.closing

/-! ## Helper lemmas -/

theorem progress_of_le_opening {tm : Timing} {n : Nat} (h : n ≤ tm.opening) :
    tm.progress n = 0 := by
  simp [Timing.progress, h]

theorem progress_of_ge_closing {tm : Timing} {n : Nat}
    (ho : tm.opening < n) (hc : tm.closing ≤ n) : tm.progress n = 1 := by
  simp [Timing.progress, Nat.not_le.mpr ho, hc]

theorem progress_of_mid {tm : Timing} {n : Nat}
    (ho : tm.opening < n) (hc : n < tm.closing) :
    tm.progress n = ((n : ℚ) - (tm.opening : ℚ)) / ((tm.closing : ℚ) - (tm.opening : ℚ)) := by
  simp [Timing.progress, Nat.not_le.mpr ho, Nat.not_le.mpr hc]

theorem resolve_eq_of_day_eq (s : Schedule) {t u : Timestamp} (h : u.day = t.day) :
    s.resolve u = s.resolve t := by
  simp [Schedule.resolve, get_start_of_week, get_weekday, h]

/-- C1: for an applicable timing with `closing > opening`, `get_number` is 0
at or before opening, 1 at or after closing, the linear interpolant strictly
between them; in the open interval it is strictly increasing in HHMM and
lies in `(0, 1)`; the seconds field never affects it. -/
theorem get_number_progress_correct (s : Schedule) (t u : Timestamp)
    (hcl : (s.resolve t).opening < (s.resolve t).closing) :
    (timestamp_to_hhmm t ≤ (s.resolve t).opening → s.get_number t = 0) ∧
    ((s.resolve t).closing ≤ timestamp_to_hhmm t → s.get_number t = 1) ∧
    ((s.resolve t).opening < timestamp_to_hhmm t → timestamp_to_hhmm t < (s.resolve t).closing →
      s.get_number t =
        ((timestamp_to_hhmm t : ℚ) - ((s.resolve t).opening : ℚ)) /
          (((s.resolve t).closing : ℚ) - ((s.resolve t).opening : ℚ)) ∧
      0 < s.get_number t ∧ s.get_number t < 1) ∧
    (u.day = t.day → (s.resolve t).opening < timestamp_to_hhmm t →
      timestamp_to_hhmm t < timestamp_to_hhmm u → timestamp_to_hhmm u < (s.resolve t).closing →
      s.get_number t < s.get_number u) ∧
    (∀ sec, s.get_number ⟨t.day, t.hour, t.minute, sec⟩ = s.get_number t) := by
  set tm := s.resolve t with htm
  set nt := timestamp_to_hhmm t with hnt
  have hden : (0 : ℚ) < (tm.closing : ℚ) - (tm.opening : ℚ) :=
    sub_pos.mpr (by exact_mod_cast hcl)
  have hgn : s.get_number t = tm.progress nt := rfl
  refine ⟨fun h => ?_, fun h => ?_, fun h1 h2 => ?_, fun hday h1 h2 h3 => ?_, fun sec => ?_⟩
  · rw [hgn, progress_of_le_opening h]
  · rw [hgn, progress_of_ge_closing (lt_of_lt_of_le hcl h) h]
  · have hnum : (0 : ℚ) < (nt : ℚ) - (tm.opening : ℚ) :=
      sub_pos.mpr (by exact_mod_cast h1)
    have hval := progress_of_mid h1 h2
    refine ⟨by rw [hgn, hval], ?_, ?_⟩
    · rw [hgn, hval]
      exact div_pos hnum hden
    · rw [hgn, hval, div_lt_one hden]
      have : (nt : ℚ) < (tm.closing : ℚ) := by exact_mod_cast h2
      linarith
  · have hru : s.resolve u = tm := resolve_eq_of_day_eq s hday
    have hgu : s.get_number u = tm.progress (timestamp_to_hhmm u) := by
      rw [Schedule.get_number, hru]
    rw [hgn, hgu, progress_of_mid h1 (lt_trans h2 h3),
      progress_of_mid (lt_trans h1 h2) h3, div_lt_div_iff₀ hden hden]
    have hlt : (nt : ℚ) < (timestamp_to_hhmm u : ℚ) := by exact_mod_cast h2
    nlinarith
  · rfl

/-- Witness for C1: with the default schedule on a Thursday
(opening 0630, closing 2230), 03:00 gives 0, 23:00 gives 1, and
14:15 gives `(1415 - 630) / (2230 - 630)`. -/
theorem get_number_progress_correct_witness :
    (⟨[]⟩ : Schedule).get_number ⟨0, 3, 0, 0⟩ = 0 ∧
    (⟨[]⟩ : Schedule).get_number ⟨0, 23, 0, 0⟩ = 1 ∧
    (⟨[]⟩ : Schedule).get_number ⟨0, 14, 15, 0⟩ = (1415 - 630) / (2230 - 630) ∧
    (⟨[]⟩ : Schedule).get_number ⟨0, 14, 15, 0⟩ < (⟨[]⟩ : Schedule).get_number ⟨0, 14, 16, 0⟩ := by
  refine ⟨(get_number_progress_correct ⟨[]⟩ ⟨0, 3, 0, 0⟩ ⟨0, 3, 0, 0⟩ (by decide)).1 (by decide),
    (get_number_progress_correct ⟨[]⟩ ⟨0, 23, 0, 0⟩ ⟨0, 23, 0, 0⟩ (by decide)).2.1 (by decide),
    ?_, ?_⟩
  · have h := ((get_number_progress_correct ⟨[]⟩ ⟨0, 14, 15, 0⟩ ⟨0, 14, 15, 0⟩
      (by decide)).2.2.1 (by decide) (by decide)).1
    have hres : (⟨[]⟩ : Schedule).resolve ⟨0, 14, 15, 0⟩ = ⟨630, 2230, true⟩ := rfl
    rw [h, hres]
    norm_num [timestamp_to_hhmm]
  · exact (get_number_progress_correct ⟨[]⟩ ⟨0, 14, 15, 0⟩ ⟨0, 14, 16, 0⟩
      (by decide)).2.2.2.1 (by decide) (by decide) (by decide) (by decide)

theorem progress_congr {a b : Timing} (h : a.sameHours b) (n : Nat) :
    a.progress n = b.progress n := by
  unfold Timing.progress
  rw [h.1, h.2]

theorem getD_sameHours {l1 l2 : List Timing} (h : List.Forall₂ Timing.sameHours l1 l2)
    (i : Nat) (d : Timing) : Timing.sameHours (l1.getD i d) (l2.getD i d) := by
  induction h generalizing i with
  | nil => exact ⟨rfl, rfl⟩
  | cons h1 _ ih =>
    cases i with
    | zero => simpa [List.getD] using h1
    | succ k => simpa [List.getD] using ih k

theorem lookup_sameHours {l1 l2 : List (Int × List Timing)}
    (h : List.Forall₂ (fun p q => p.1 = q.1 ∧ List.Forall₂ Timing.sameHours p.2 q.2) l1 l2)
    (k : Int) :
    (l1.lookup k = none ∧ l2.lookup k = none) ∨
    (∃ v1 v2, l1.lookup k = some v1 ∧ l2.lookup k = some v2 ∧
      List.Forall₂ Timing.sameHours v1 v2) := by
  induction h with
  | nil => simp
  | cons h1 h2 ih =>
    obtain ⟨hk, hv⟩ := h1
    rename_i p q l1' l2'
    by_cases hek : k = p.1
    · right
      refine ⟨p.2, q.2, ?_, ?_, hv⟩
      · simp [List.lookup, hek]
      · simp [List.lookup, hek, hk]
    · have h1' : (p :: l1').lookup k = l1'.lookup k := by
        simp [List.lookup, beq_eq_false_iff_ne.mpr hek]
      have h2' : (q :: l2').lookup k = l2'.lookup k := by
        have hq : k ≠ q.1 := hk ▸ hek
        simp [List.lookup, beq_eq_false_iff_ne.mpr hq]
      rw [h1', h2']
      exact ih

/-- C6: the progress computation never reads the `isOpen` flag: two timings
with identical opening/closing but opposite flags give identical progress,
and two schedules whose stored timings agree on hours (flags arbitrary)
give identical `get_number` on every timestamp. -/
theorem get_number_isOpen_invariant (o c n : Nat) (b1 b2 : Bool)
    (s1 s2 : Schedule) (t : Timestamp)
    (hdata : List.Forall₂ (fun p q => p.1 = q.1 ∧ List.Forall₂ Timing.sameHours p.2 q.2)
      s1.data s2.data) :
    Timing.progress ⟨o, c, b1⟩ n = Timing.progress ⟨o, c, b2⟩ n ∧
    s1.get_number t = s2.get_number t := by
  refine ⟨progress_congr ⟨rfl, rfl⟩ n, ?_⟩
  unfold Schedule.get_number
  rcases lookup_sameHours hdata (get_start_of_week t) with ⟨h1, h2⟩ | ⟨v1, v2, h1, h2, hv⟩
  · simp [Schedule.resolve, h1, h2]
  · simp only [Schedule.resolve, h1, h2]
    exact progress_congr (getD_sameHours hv _ _) _

/-- Witness for C6 at opening 0630, closing 2230, HHMM 1415. -/
theorem get_number_isOpen_invariant_witness :
    Timing.progress ⟨630, 2230, true⟩ 1415 = Timing.progress ⟨630, 2230, false⟩ 1415 ∧
    (⟨[]⟩ : Schedule).get_number ⟨0, 14, 15, 0⟩ = (⟨[]⟩ : Schedule).get_number ⟨0, 14, 15, 0⟩ :=
  get_number_isOpen_invariant 630 2230 1415 true false ⟨[]⟩ ⟨[]⟩ ⟨0, 14, 15, 0⟩
    List.Forall₂.nil

/-- C7 (code bug): with a stored week whose every day has
`opening = 2230 ≥ closing = 630`, `get_number` silently returns the plain
values 0 (at 14:00) and 1 (at 23:00); no configuration error is detected or
reported anywhere, and in general the interpolation branch is unreachable
when `closing ≤ opening`, so the code yields 0 or 1 instead of failing. -/
theorem misconfigured_timing_silent :
    Schedule.get_number ⟨[(-3, List.replicate 7 ⟨2230, 630, true⟩)]⟩ ⟨0, 14, 0, 0⟩ = 0 ∧
    Schedule.get_number ⟨[(-3, List.replicate 7 ⟨2230, 630, true⟩)]⟩ ⟨0, 23, 0, 0⟩ = 1 ∧
    ∀ tm : Timing, ∀ n, tm.closing ≤ tm.opening → tm.progress n = 0 ∨ tm.progress n = 1 := by
  refine ⟨by decide, by decide, fun tm n h => ?_⟩
  unfold Timing.progress
  split_ifs with h1 h2
  · left; rfl
  · right; rfl
  · omega

theorem get_weekday_lt (t : Timestamp) : get_weekday t < 7 := by
  unfold get_weekday
  omega

/-- C5: `get_number` resolves the applicable timing by exact lookup of the
Monday 00:00 of the timestamp's week (the start of week is a Monday and
lies at most six days back); on a hit it uses that week's timing for the
weekday, on a miss the default schedule's timing, whose constants are
0630–2230 Monday–Friday and 0800–2100 Saturday–Sunday. -/
theorem get_number_week_resolution (s : Schedule) (t : Timestamp) :
    (get_weekday ⟨get_start_of_week t, 0, 0, 0⟩ = 0 ∧
      get_start_of_week t ≤ t.day ∧ t.day < get_start_of_week t + 7) ∧
    (∀ tms, s.data.lookup (get_start_of_week t) = some tms →
      s.get_number t = (tms.getD (get_weekday t) ⟨0, 0, true⟩).progress (timestamp_to_hhmm t)) ∧
    (s.data.lookup (get_start_of_week t) = none →
      s.get_number t =
        (default_timings.getD (get_weekday t) ⟨0, 0, true⟩).progress (timestamp_to_hhmm t)) ∧
    (get_weekday t < 5 →
      (default_timings.getD (get_weekday t) ⟨0, 0, true⟩).opening = 630 ∧
      (default_timings.getD (get_weekday t) ⟨0, 0, true⟩).closing = 2230) ∧
    (5 ≤ get_weekday t →
      (default_timings.getD (get_weekday t) ⟨0, 0, true⟩).opening = 800 ∧
      (default_timings.getD (get_weekday t) ⟨0, 0, true⟩).closing = 2100) := by
  have h7 : get_weekday t < 7 := get_weekday_lt t
  refine ⟨⟨?_, ?_, ?_⟩, fun tms h => ?_, fun h => ?_, fun h5 => ?_, fun h5 => ?_⟩
  · show ((get_start_of_week t + 3) % 7).toNat = 0
    unfold get_start_of_week get_weekday
    omega
  · unfold get_start_of_week get_weekday
    omega
  · unfold get_start_of_week get_weekday
    omega
  · unfold Schedule.get_number Schedule.resolve
    rw [h]
  · unfold Schedule.get_number Schedule.resolve
    rw [h]
  · set w := get_weekday t with hw
    clear_value w
    interval_cases w <;> decide
  · set w := get_weekday t with hw
    clear_value w
    interval_cases w <;> decide

/-- C10: the constructor loop `for i in range(len(sch))` runs over the
length of the two-array input pair, i.e. `i = 0, 1`, regardless of how many
weeks the parallel arrays list: a successful construction stores exactly the
entries for `dates[0]` and `dates[1]` (most recent first), every other week
key looks up to `none`, and any timestamp in such a week falls back to the
default schedule. -/
theorem schedule_init_two_entries (dates : List Int) (blobs : List (List Timing))
    (s : Schedule) (h : Schedule.init dates blobs = some s) :
    ∃ d0 d1 b0 b1, dates.get? 0 = some d0 ∧ dates.get? 1 = some d1 ∧
      blobs.get? 0 = some b0 ∧ blobs.get? 1 = some b1 ∧
      s.data = [(d1, b1.take 7), (d0, b0.take 7)] ∧
      (∀ w, w ≠ d0 → w ≠ d1 → s.data.lookup w = none) ∧
      (∀ t : Timestamp, get_start_of_week t ≠ d0 → get_start_of_week t ≠ d1 →
        s.get_number t =
          (default_timings.getD (get_weekday t) ⟨0, 0, true⟩).progress (timestamp_to_hhmm t)) := by
  unfold Schedule.init at h
  rw [show List.range 2 = [0, 1] from rfl] at h
  simp only [List.foldlM, Option.bind_eq_bind, Option.map_eq_some', Option.bind_eq_some,
    Option.ite_none_right_eq_some, Option.some.injEq] at h
  obtain ⟨l, ⟨s1, ⟨d0, hd0, b0, hb0, hlen0, hs1⟩, s2, ⟨d1, hd1, b1, hb1, hlen1, hs2⟩, hl⟩,
    hs⟩ := h
  subst hs1 hs2
  simp only [Option.pure_def, Option.some.injEq] at hl
  subst hl hs
  refine ⟨d0, d1, b0, b1, hd0, hd1, hb0, hb1, rfl, ?_, ?_⟩
  · intro w hw0 hw1
    simp [List.lookup, beq_eq_false_iff_ne.mpr hw1, beq_eq_false_iff_ne.mpr hw0]
  · intro t ht0 ht1
    have hlk : (Schedule.mk [(d1, b1.take 7), (d0, b0.take 7)]).data.lookup
        (get_start_of_week t) = none := by
      simp [List.lookup, beq_eq_false_iff_ne.mpr ht1, beq_eq_false_iff_ne.mpr ht0]
    unfold Schedule.get_number Schedule.resolve
    rw [hlk]

/-- Witness for C10: three weeks listed (Mondays 10, 20, 30), but only the
first two are registered; week 30 resolves to `none`. -/
theorem schedule_init_two_entries_witness :
    (Schedule.mk [(20, List.replicate 7 ⟨800, 2100, true⟩),
      (10, List.replicate 7 ⟨630, 2230, true⟩)]).data.lookup 30 = none := by
  obtain ⟨d0, d1, b0, b1, hd0, hd1, hb0, hb1, hdata, hlook, _⟩ :=
    schedule_init_two_entries [10, 20, 30]
      [List.replicate 7 ⟨630, 2230, true⟩, List.replicate 7 ⟨800, 2100, true⟩,
       List.replicate 7 ⟨900, 1700, true⟩]
      ⟨[(20, List.replicate 7 ⟨800, 2100, true⟩),
        (10, List.replicate 7 ⟨630, 2230, true⟩)]⟩ rfl
  simp only [List.get?] at hd0 hd1
  injection hd0 with hd0
  injection hd1 with hd1
  subst hd0 hd1
  exact hlook 30 (by decide) (by decide)

theorem foldl_classify (ps : List (Int × Int)) (d : Int) (init : Nat) :
    ps.foldl (fun acc p => if p.1 ≤ d ∧ d < p.2 + 1 then 0 else acc) init =
      if ∃ p ∈ ps, p.1 ≤ d ∧ d < p.2 + 1 then 0 else init := by
  induction ps generalizing init with
  | nil => simp
  | cons p ps ih =>
    rw [List.foldl_cons, ih]
    by_cases hp : p.1 ≤ d ∧ d < p.2 + 1
    · simp [hp, List.exists_mem_cons_iff]
    · simp only [List.exists_mem_cons_iff, hp, false_or, if_false]

/-- C9: the term-time classifier returns 1 by default and 0 exactly when the
day falls inside one of the fixed calendar intervals, end inclusive (the
`< end + 1 day` comparison); the table contains [2024-09-16, 2024-10-20],
2024-09-20 classifies as 0 and 2024-09-01 as 1. -/
theorem classify_term_time_correct (d : Int) :
    (classify_term_time d = if ∃ p ∈ term_periods, p.1 ≤ d ∧ d ≤ p.2 then 0 else 1) ∧
    (days_from_civil 2024 9 16, days_from_civil 2024 10 20) ∈ term_periods ∧
    classify_term_time (days_from_civil 2024 9 20) = 0 ∧
    classify_term_time (days_from_civil 2024 9 1) = 1 := by
  refine ⟨?_, by decide, by decide, by decide⟩
  rw [classify_term_time, foldl_classify]
  simp only [Int.lt_add_one_iff]

/-- C3 counterexample: with `date_from = 6 > date_to = 0` and step 5 the
generator yields nothing at all, so it does not include `date_from`, and its
length 0 differs from `floor((0 - 6)/5) + 1 = 0` only by accident of this
pair — the "always includes `a`" part of the claim is false. -/
theorem generate_range_not_always_includes_start :
    ¬ ((6 : Int) ∈ generate_datetime_range 6 0 5 (by norm_num)) := by
  rw [generate_datetime_range]
  simp

theorem generate_datetime_range_eq (k : Nat) (hk : 0 < k) :
    ∀ (n : Nat) (a b : Int), (b + 1 - a).toNat = n →
      generate_datetime_range a b k hk =
        (List.range (if a ≤ b then ((b - a) / k).toNat + 1 else 0)).map
          fun i : Nat => a + (i : Int) * (k : Int) := by
  intro n
  induction n using Nat.strong_induction_on with
  | _ n ih =>
    intro a b hn
    rw [generate_datetime_range]
    by_cases hab : a ≤ b
    · rw [if_pos hab, if_pos hab,
        ih (b + 1 - (a + k)).toNat (by omega) (a + k) b rfl]
      by_cases hab2 : a + k ≤ b
      · rw [if_pos hab2]
        have hkz : (k : Int) ≠ 0 := by positivity
        have hq : (b - a) / (k : Int) = (b - (a + k)) / k + 1 := by
          rw [show b - a = (b - (a + k)) + 1 * k by ring,
            Int.add_mul_ediv_right _ _ hkz]
        have h3 : (0 : Int) ≤ (b - (a + k)) / k := Int.ediv_nonneg (by omega) (by positivity)
        have hq' : ((b - a) / (k : Int)).toNat = ((b - (a + k)) / (k : Int)).toNat + 1 := by
          omega
        rw [hq']
        conv_rhs => rw [List.range_succ_eq_map, List.map_cons, List.map_map]
        congr 1
        · norm_num
        · exact List.map_congr_left fun i _ => by
            simp only [Function.comp_apply]
            push_cast
            ring
      · rw [if_neg hab2]
        have hq0 : (b - a) / (k : Int) = 0 :=
          Int.ediv_eq_zero_of_lt (by omega) (by omega)
        rw [hq0]
        simp [List.range_succ]
    · rw [if_neg hab, if_neg hab]
      simp

/-- C3 (amended with `a ≤ b`): for `a ≤ b` and a positive step the generator
yields a strictly increasing sequence that includes `a`, never exceeds `b`,
and has length `floor((b - a)/step) + 1`. -/
theorem generate_range_correct (a b : Int) (k : Nat) (hk : 0 < k) (hab : a ≤ b) :
    List.Pairwise (· < ·) (generate_datetime_range a b k hk) ∧
    a ∈ generate_datetime_range a b k hk ∧
    (∀ x ∈ generate_datetime_range a b k hk, x ≤ b) ∧
    (generate_datetime_range a b k hk).length = ((b - a) / k).toNat + 1 := by
  have hcf := generate_datetime_range_eq k hk _ a b rfl
  rw [hcf, if_pos hab]
  have hkpos : (0 : Int) < k := by positivity
  refine ⟨?_, ?_, ?_, by simp⟩
  · refine List.Pairwise.map _ ?_ (List.pairwise_lt_range _)
    intro i j hij
    have hij' : (i : Int) < j := by exact_mod_cast hij
    have := mul_lt_mul_of_pos_right hij' hkpos
    omega
  · exact List.mem_map.mpr ⟨0, List.mem_range.mpr (by omega), by simp⟩
  · intro x hx
    obtain ⟨i, hi, rfl⟩ := List.mem_map.mp hx
    have hq0 : 0 ≤ (b - a) / (k : Int) := Int.ediv_nonneg (by omega) (by positivity)
    have hqk : (b - a) / (k : Int) * k ≤ b - a := Int.ediv_mul_le _ (by positivity)
    have hi' : (i : Int) ≤ (b - a) / (k : Int) := by
      have := List.mem_range.mp hi
      omega
    nlinarith

/-- Witness for the amended C3: `generate_datetime_range 0 10 5` contains 0
and has length `(10 - 0)/5 + 1 = 3`. -/
theorem generate_range_correct_witness :
    (0 : Int) ∈ generate_datetime_range 0 10 5 (by norm_num) ∧
    (generate_datetime_range 0 10 5 (by norm_num)).length = 3 := by
  have h := generate_range_correct 0 10 5 (by norm_num) (by norm_num)
  refine ⟨h.2.1, ?_⟩
  rw [h.2.2.2]
  decide

theorem tail_slice_eq_drop {α : Type} (xs : List α) {L : Nat} (hL : 1 ≤ L) :
    tail_slice xs L = xs.drop (xs.length - L) := by
  unfold tail_slice
  rw [if_neg (by omega)]

/-- C2: on aligned series of length `N` with `1 ≤ L ≤ N`, the tail-pad
windower emits exactly `N` windows: `features[i : i+L]` anchored at target
`i+L` while `i + L < N`, and the fixed tail `features[-L:]` anchored at the
last target for every later `i` — so those last `L` windows coincide. -/
theorem create_sequences_tail_pad {α β : Type} (features : List α) (targets : List β)
    (L : Nat) (ht : targets.length = features.length) (hL1 : 1 ≤ L)
    (hLN : L ≤ features.length) :
    (create_sequences features targets L).1.length = features.length ∧
    (create_sequences features targets L).2.length = features.length ∧
    (∀ i, i + L < features.length →
      (create_sequences features targets L).1.get? i = some ((features.drop i).take L) ∧
      (create_sequences features targets L).2.get? i = some (targets.get? (i + L))) ∧
    (∀ i, i < features.length → features.length ≤ i + L →
      (create_sequences features targets L).1.get? i =
        some (features.drop (features.length - L)) ∧
      (create_sequences features targets L).2.get? i =
        some (targets.get? (targets.length - 1))) ∧
    (∀ i j, i < features.length → j < features.length →
      features.length ≤ i + L → features.length ≤ j + L →
      (create_sequences features targets L).1.get? i =
        (create_sequences features targets L).1.get? j) := by
  unfold create_sequences
  simp only [List.length_map, List.length_range]
  refine ⟨trivial, trivial, fun i hi => ?_, fun i hi1 hi2 => ?_, fun i j hi hj hiL hjL => ?_⟩
  · rw [List.get?_map, List.get?_range (by omega), List.get?_map,
      List.get?_range (by omega)]
    simp only [Option.map_some']
    rw [if_neg (by omega), if_neg (by omega)]
    exact ⟨rfl, rfl⟩
  · rw [List.get?_map, List.get?_range hi1, List.get?_map, List.get?_range hi1]
    simp only [Option.map_some']
    rw [if_pos (by omega), if_pos (by omega), tail_slice_eq_drop _ hL1,
      List.getLast?_eq_get?]
    exact ⟨rfl, rfl⟩
  · rw [List.get?_map, List.get?_range hi, List.get?_map, List.get?_range hj]
    simp only [Option.map_some']
    rw [if_pos (by omega), if_pos (by omega)]

/-- Witness for C2 on `features = [10, 20, 30]`, `targets = [1, 2, 3]`,
`L = 2`: three windows, `[10, 20]` at anchor 2 then the repeated tail
`[20, 30]`. -/
theorem create_sequences_tail_pad_witness :
    (create_sequences [10, 20, 30] [1, 2, 3] 2).1.length = 3 ∧
    (create_sequences [10, 20, 30] [1, 2, 3] 2).1.get? 0 = some [10, 20] ∧
    (create_sequences [10, 20, 30] [1, 2, 3] 2).2.get? 0 = some (some 3) ∧
    (create_sequences [10, 20, 30] [1, 2, 3] 2).1.get? 1 = some [20, 30] ∧
    (create_sequences [10, 20, 30] [1, 2, 3] 2).1.get? 2 = some [20, 30] := by
  have h := create_sequences_tail_pad [10, 20, 30] [1, 2, 3] 2 rfl (by norm_num)
    (by norm_num)
  refine ⟨h.1, ?_, ?_, ?_, ?_⟩
  · simpa using (h.2.2.1 0 (by norm_num)).1
  · simpa using (h.2.2.1 0 (by norm_num)).2
  · simpa using (h.2.2.2.1 1 (by norm_num) (by norm_num)).1
  · simpa using (h.2.2.2.1 2 (by norm_num) (by norm_num)).1

/-- C8 counterexample: the repository's only windower, applied to a series
of length 2 with window length 5, emits 2 windows — not
`max(0, 2 - 5) = 0` as the claimed strict-drop mode would; no strict-drop
mode exists in the code. -/
theorem strict_drop_mode_missing :
    ((create_sequences [(10 : Nat), 20] [(1 : Nat), 2] 5).1.length : Int) ≠ max 0 (2 - 5) := by
  decide

/-- C8 (amended): `create_sequences` has a single (tail-pad) mode; there is
no strict-drop mode.  For `N ≤ L` it produces `N` windows — not zero — each
equal to the entire feature series. -/
theorem create_sequences_no_strict_drop {α β : Type} (features : List α) (targets : List β)
    (L : Nat) (ht : targets.length = features.length) (hL1 : 1 ≤ L)
    (hNL : features.length ≤ L) :
    (create_sequences features targets L).1.length = features.length ∧
    ∀ i, i < features.length →
      (create_sequences features targets L).1.get? i = some features := by
  unfold create_sequences
  simp only [List.length_map, List.length_range]
  refine ⟨trivial, fun i hi => ?_⟩
  rw [List.get?_map, List.get?_range hi]
  simp only [Option.map_some']
  rw [if_pos (by omega), tail_slice_eq_drop _ hL1,
    show features.length - L = 0 by omega, List.drop_zero]

/-- Witness for the amended C8: a length-2 series with window length 5
yields 2 windows, each the whole series. -/
theorem create_sequences_no_strict_drop_witness :
    (create_sequences [(10 : Nat), 20] [(1 : Nat), 2] 5).1.length = 2 ∧
    (create_sequences [(10 : Nat), 20] [(1 : Nat), 2] 5).1.get? 0 = some [10, 20] := by
  have h := create_sequences_no_strict_drop [(10 : Nat), 20] [(1 : Nat), 2] 5 rfl
    (by norm_num) (by norm_num)
  exact ⟨h.1, h.2 0 (by norm_num)⟩

/-- C4: the cyclical encoder computes `sin/cos(weekday · 2π/7)` for the
weekday in `[0, 6]`, `sin/cos(2π · day_of_year / 365)` with the fixed
divisor 365, and `day_progress = (hour·3600 + minute·60 + second)/86400`,
which lies in `[0, 1)`. -/
theorem extract_features_dates_correct (t : DtFields) (hdow : t.dayofweek ≤ 6)
    (hh : t.hour ≤ 23) (hm : t.minute ≤ 59) (hs : t.second ≤ 59) :
    (extract_features_dates t).day_sin = Real.sin ((t.dayofweek : ℝ) * (2 * Real.pi / 7)) ∧
    (extract_features_dates t).day_cos = Real.cos ((t.dayofweek : ℝ) * (2 * Real.pi / 7)) ∧
    (extract_features_dates t).day_of_year_sin =
      Real.sin (2 * Real.pi * (t.dayofyear : ℝ) / 365) ∧
    (extract_features_dates t).day_of_year_cos =
      Real.cos (2 * Real.pi * (t.dayofyear : ℝ) / 365) ∧
    (extract_features_dates t).day_progress =
      ((t.hour * 3600 + t.minute * 60 + t.second : Nat) : ℝ) / 86400 ∧
    0 ≤ (extract_features_dates t).day_progress ∧
    (extract_features_dates t).day_progress < 1 := by
  refine ⟨rfl, rfl, rfl, rfl, rfl, ?_, ?_⟩
  · show (0 : ℝ) ≤ ((t.hour * 3600 + t.minute * 60 + t.second : Nat) : ℝ) / 86400
    positivity
  · show (((t.hour * 3600 + t.minute * 60 + t.second : Nat) : ℝ)) / 86400 < 1
    rw [div_lt_one (by norm_num)]
    have hb : t.hour * 3600 + t.minute * 60 + t.second < 86400 := by omega
    exact_mod_cast Nat.cast_lt.mpr hb

/-- Witness for C4 at 2024-09-07 (a Saturday, weekday 5, day-of-year 251)
14:30:45. -/
theorem extract_features_dates_correct_witness :
    (extract_features_dates ⟨5, 7, 9, 251, 14, 30, 45⟩).day_progress =
      ((52245 : Nat) : ℝ) / 86400 ∧
    0 ≤ (extract_features_dates ⟨5, 7, 9, 251, 14, 30, 45⟩).day_progress ∧
    (extract_features_dates ⟨5, 7, 9, 251, 14, 30, 45⟩).day_progress < 1 := by
  have h := extract_features_dates_correct ⟨5, 7, 9, 251, 14, 30, 45⟩
    (by norm_num) (by norm_num) (by norm_num) (by norm_num)
  exact ⟨h.2.2.2.2.1, h.2.2.2.2.2.1, h.2.2.2.2.2.2⟩

end Occupancy
